import Mathlib

/-!
Verification of the decentralized kernel-metric-driven edge-FaaS scheduler.

The definitions below are a shallow embedding of the Go sources:
  * the cluster state, scheduler and gRPC handlers of `cmd/peer.go`
    (the `scheduleJob` / `peerServer` variant with `NodeTTL = 4s`),
  * the local snapshot of `cmd/snapshot.go` (`MetricsSnapshot.UpdateCPU`),
  * the producer tick bodies of `cmd/cpuwatch.go` (`pollCPUStats`),
    `cmd/memwatch.go` (`pollMemStats`) and `cmd/tempwatch.go`
    (`pollThermalStats`).

Go `float64` values are modelled as rationals (all constants involved are
exactly representable); Go maps are modelled as association lists with
distinct keys; wall-clock time is modelled as a rational number of seconds.
-/

namespace EdgeFaas

/-- Wire-level metrics snapshot (proto `MetricsSnapshot`): cpu/mem pressure
percentages, temperature in Celsius, thermal status string, zone name. -/
structure MetricsSnapshot where
  cpu : ℚ
  mem : ℚ
  tempC : ℚ
  tempStatus : String
  zone : String
deriving Repr, DecidableEq

/-- One row of the Cluster View (`NodeData` in `cmd/peer.go`): the latest
snapshot and the wall time at which it was stored. -/
structure NodeData where
  snapshot : MetricsSnapshot
  lastSeen : ℚ
deriving Repr, DecidableEq

/-- Job submission request (proto `JobRequest`). -/
structure JobRequest where
  id : String
  name : String
  image : String
  args : List String
  reqCpu : ℚ
  reqMem : ℚ
deriving Repr, DecidableEq

/-- RPC acknowledgement (proto `Ack`). -/
structure Ack where
  msg : String
  forwardedTo : String
deriving Repr, DecidableEq

/-- Maximum silence (in seconds) before a Cluster View entry is considered
stale: `NodeTTL = 4 * time.Second` in `cmd/peer.go`. -/
def NodeTTL : ℚ := 4

/-- The Cluster View map (`ClusterState.Metrics`), modelled as an
association list from peer identifier to `NodeData`; the Go map invariant
is that keys are distinct. -/
abbrev ClusterView := List (String × NodeData)

/-- Keys currently present in the Cluster View. -/
def viewKeys (v : ClusterView) : List String := v.map Prod.fst

/-- Go map assignment `c.Metrics[ip] = NodeData(snap, now)`: overwrite the
binding when the key is present, otherwise add it.  This is the body of
`ClusterState.Update`, which stamps `LastSeen = time.Now()`. -/
def ClusterView.Update : ClusterView → String → MetricsSnapshot → ℚ → ClusterView
  | [], ip, snap, now => [(ip, ⟨snap, now⟩)]
  | p :: rest, ip, snap, now =>
    if p.1 = ip then (ip, ⟨snap, now⟩) :: rest
    else p :: ClusterView.Update rest ip snap now

/-- Capacity check `cpuOk := (m.Cpu + job.ReqCpu) < 95.0` of `scheduleJob`. -/
def cpuOk (m : MetricsSnapshot) (job : JobRequest) : Bool :=
  decide (m.cpu + job.reqCpu < 95)

/-- Capacity check `memOk := (m.Mem + job.ReqMem) < 90.0` of `scheduleJob`. -/
def memOk (m : MetricsSnapshot) (job : JobRequest) : Bool :=
  decide (m.mem + job.reqMem < 90)

/-- Thermal admission test of `scheduleJob`:
`m.TempStatus == "SAFE" || m.TempStatus == ""`. -/
def tempSafeOk (m : MetricsSnapshot) : Bool :=
  m.tempStatus = "SAFE" || m.tempStatus = ""

/-- The candidate-filtering loop of `scheduleJob` (step 3 of the source):
walk the view in iteration order; skip entries with
`time.Since(LastSeen) > NodeTTL`; append to `validCandidates` when both
capacity checks pass, and additionally to `safeCandidates` when the thermal
status is SAFE or empty.  Returns `(validCandidates, safeCandidates)`. -/
def collectCandidates (now : ℚ) (job : JobRequest) :
    ClusterView → List String × List String
  | [] => ([], [])
  | (ip, d) :: rest =>
    let tail := collectCandidates now job rest
    if now - d.lastSeen > NodeTTL then tail
    else if cpuOk d.snapshot job && memOk d.snapshot job then
      (ip :: tail.1, if tempSafeOk d.snapshot then ip :: tail.2 else tail.2)
    else tail

/-- Step 4 of `scheduleJob`: prefer the thermally safe pool when it is
non-empty, otherwise fall back to the full valid pool. -/
def finalPool (now : ℚ) (job : JobRequest) (view : ClusterView) : List String :=
  let c := collectCandidates now job view
  if c.2.isEmpty then c.1 else c.2

/-- Step 5 of `scheduleJob`: pick `finalPool[rand.Intn(len(finalPool))]`
(the random draw is modelled by an arbitrary natural `r` reduced modulo the
pool length), then override with `"localhost"` whenever it is in the pool. -/
def selectIP (pool : List String) (r : Nat) : String :=
  let sel := pool.getD (r % pool.length) ""
  if "localhost" ∈ pool then "localhost" else sel

/-- Outcome of `scheduleJob` before the blocking execution step: either the
`NoCapacity` failure, a local Docker execution, or a forward to a peer. -/
inductive ScheduleResult where
  | noCapacity
  | runLocal
  | forward (ip : String)
deriving Repr, DecidableEq

/-- The decision portion of `scheduleJob` in `cmd/peer.go`: filter
candidates, fail when the valid pool is empty, choose the pool, select a
member (with localhost override), and dispatch locally or remotely. -/
def scheduleJob (now : ℚ) (r : Nat) (job : JobRequest) (view : ClusterView) :
    ScheduleResult :=
  let c := collectCandidates now job view
  if c.1.isEmpty then .noCapacity
  else
    let pool := if c.2.isEmpty then c.1 else c.2
    let sel := selectIP pool r
    if sel = "localhost" then .runLocal else .forward sel

/-- Result of the execution step of `scheduleJob`, as the pair
`(target, hasError)` that the Go function returns.  `execFailed` abstracts
the outcome of `executeDockerContainer`; `remoteRunner` abstracts the
outcome of `forwardJobToPeer`'s RPC (`none` = dial/remote failure, `some s`
= the peer's reported `ForwardedTo`, translated from `"localhost"` to the
peer's address as in the source). -/
def scheduleOutcome (res : ScheduleResult) (execFailed : Bool)
    (remoteRunner : Option String) : String × Bool :=
  match res with
  | .noCapacity => ("", true)
  | .runLocal => ("localhost", execFailed)
  | .forward ip =>
    match remoteRunner with
    | none => ("", true)
    | some s => (if s = "localhost" then ip else s, false)

/-- The `peerServer.SubmitJob` handler: on a scheduling error return
`Ack(Msg: "Failed", ForwardedTo: "")` together with the error, otherwise
`Ack(Msg: "Completed Successfully", ForwardedTo: target)`.  The second
component records whether a non-nil error is returned. -/
def submitJobAck (outcome : String × Bool) : Ack × Bool :=
  if outcome.2 then (⟨"Failed", ""⟩, true)
  else (⟨"Completed Successfully", outcome.1⟩, false)

/-- The `peerServer.Push` handler: derive the sender key from the RPC peer
metadata (`none` models a missing/undecodable address, mapped to the
literal `"unknown"`), store the snapshot with `LastSeen = now`, and return
`Ack(Msg: "OK")` with a nil error (the `Option String` component). -/
def pushHandler (view : ClusterView) (now : ℚ) (senderHost : Option String)
    (m : MetricsSnapshot) : ClusterView × Ack × Option String :=
  let senderIP := match senderHost with
    | none => "unknown"
    | some h => h
  (view.Update senderIP m now, ⟨"OK", ""⟩, none)

/-- CPU clamp of `MetricsSnapshot.UpdateCPU` in `cmd/snapshot.go`: values
above 95 are stored as 95, every other value is stored unchanged.  Returns
the stored `CPUPercent`. -/
def UpdateCPU (v : ℚ) : ℚ :=
  if v > 95 then 95 else v

/-- Go map read with zero value: `lastCPU[pid]` returns the stored counter,
or `0` when the pid was never seen. -/
def lookupD : List (Nat × Nat) → Nat → Nat
  | [], _ => 0
  | p :: rest, k => if p.1 = k then p.2 else lookupD rest k

/-- Go map assignment `lastCPU[pid] = ns` on the per-pid counter map:
overwrite the binding when the key is present, otherwise add it. -/
def mapPut : List (Nat × Nat) → Nat → Nat → List (Nat × Nat)
  | [], k, v => [(k, v)]
  | p :: rest, k, v =>
    if p.1 = k then (k, v) :: rest else p :: mapPut rest k v

/-- The iteration body of one `pollCPUStats` tick in `cmd/cpuwatch.go`:
walk every `(pid, ns)` pair of the BPF map; read `prev := lastCPU[pid]`;
accumulate `ns - prev` only when `ns > prev`; store `lastCPU[pid] = ns`.
Returns the accumulated `totalDelta` and the updated `lastCPU` map. -/
def cpuLoop (last : List (Nat × Nat)) :
    List (Nat × Nat) → Nat × List (Nat × Nat)
  | [] => (0, last)
  | (pid, ns) :: rest =>
    let prev := lookupD last pid
    let delta := if prev < ns then ns - prev else 0
    let tail := cpuLoop (mapPut last pid ns) rest
    (delta + tail.1, tail.2)

/-- One full `pollCPUStats` tick: the loop above followed by the emission
`float64(totalDelta) / float64(scaledIntervalNS) * 100.0`, where
`scaledIntervalNS = intervalNS * numCPUs`.  Returns the emitted percentage
and the updated `lastCPU` map. -/
def cpuTick (last : List (Nat × Nat)) (counters : List (Nat × Nat))
    (intervalNS numCPUs : Nat) : ℚ × List (Nat × Nat) :=
  let body := cpuLoop last counters
  (((body.1 : ℚ) / ((intervalNS * numCPUs : Nat) : ℚ)) * 100, body.2)

/-- Unsigned 64-bit subtraction `total - last` as performed on the `uint64`
stall counters of `pollMemStats` (the counter is monotone, so the wrapping
branch never fires in practice). -/
def u64Sub (a b : Nat) : Nat :=
  if b ≤ a then a - b else 2 ^ 64 - (b - a)

/-- One `pollMemStats` tick in `cmd/memwatch.go`: read the global reclaim
stall counter `total` (nanoseconds) from the BPF array map, compute
`delta := total - last`, and emit `float64(delta) / float64(intervalNS) *
100.0`.  Returns the emitted percentage and the new `last`. -/
def pollMemTick (last total intervalNS : Nat) : ℚ × Nat :=
  let delta := u64Sub total last
  (((delta : ℚ) / (intervalNS : ℚ)) * 100, total)

/-- Memory saturation formula as the specification states it:
`(MemTotal - MemAvailable) / MemTotal * 100`.  Modelled from the spec for
comparison with `pollMemTick`; no function of `cmd/memwatch.go` computes
this quantity. -/
def specMemPercent (memTotal memAvailable : ℚ) : ℚ :=
  (memTotal - memAvailable) / memTotal * 100

/-- Thermal reading streamed by the temperature producer (`TempReading`
in `cmd/tempwatch.go`). -/
structure TempReading where
  tempC : ℚ
  status : String
  zone : String
deriving Repr, DecidableEq

/-- One `pollThermalStats` tick in `cmd/tempwatch.go`.  The Bool flags
model the success of the three BPF map lookups (`zone_count`,
`zone_temps`, `zone_names`); `zoneCount` is the stored count, `tempMC` the
stored millidegree reading and `zone` the trimmed zone name.  A failed
lookup or a zero `zoneCount` hits a `continue`: the tick emits nothing
(`none`).  Otherwise the tick emits `tempC = tempMC / 1000` classified as
HOT above 80, WARM above 60, SAFE otherwise. -/
def pollThermalTick (countOk : Bool) (zoneCount : Nat) (tempOk nameOk : Bool)
    (tempMC : Nat) (zone : String) : Option TempReading :=
  if !countOk || zoneCount == 0 then none
  else if !tempOk then none
  else if !nameOk then none
  else
    let tempC : ℚ := (tempMC : ℚ) / 1000
    let status := if tempC > 80 then "HOT"
      else if tempC > 60 then "WARM"
      else "SAFE"
    some ⟨tempC, status, zone⟩

/-- Thermal classification as the specification states it: HOT when
`temp_c > 80`, WARM when `60 < temp_c ≤ 80`, SAFE when `temp_c ≤ 60`.
Modelled from the spec for comparison with `pollThermalTick`. -/
def specThermalStatus (t : ℚ) : String :=
  if 80 < t then "HOT"
  else if 60 < t ∧ t ≤ 80 then "WARM"
  else "SAFE"

/-- Combined admission predicate of the feasibility filter: the entry is
live and has CPU and memory headroom.  Abbreviates the three checks of
`scheduleJob` for use in the lemmas below. -/
def validP (now : ℚ) (job : JobRequest) (p : String × NodeData) : Bool :=
  !(decide (now - p.2.lastSeen > NodeTTL)) &&
    (cpuOk p.2.snapshot job && memOk p.2.snapshot job)

/-! Helper lemmas about the candidate-collection loop and the map model. -/

theorem collect_fst_subset (now : ℚ) (job : JobRequest) :
    ∀ (view : ClusterView) (ip : String),
      ip ∈ (collectCandidates now job view).1 → ip ∈ viewKeys view := by
  intro view
  induction view with
  | nil => intro ip h; simp [collectCandidates] at h
  | cons p rest ih =>
    intro ip h
    obtain ⟨q, d⟩ := p
    simp only [collectCandidates] at h
    by_cases h1 : now - d.lastSeen > NodeTTL
    · rw [if_pos h1] at h
      exact List.mem_cons_of_mem _ (ih ip h)
    · rw [if_neg h1] at h
      by_cases h2 : (cpuOk d.snapshot job && memOk d.snapshot job) = true
      · rw [if_pos h2] at h
        rcases List.mem_cons.mp h with h3 | h3
        · exact h3 ▸ List.mem_cons_self _ _
        · exact List.mem_cons_of_mem _ (ih ip h3)
      · rw [if_neg h2] at h
        exact List.mem_cons_of_mem _ (ih ip h)

theorem collect_snd_subset (now : ℚ) (job : JobRequest) :
    ∀ (view : ClusterView) (ip : String),
      ip ∈ (collectCandidates now job view).2 → ip ∈ viewKeys view := by
  intro view
  induction view with
  | nil => intro ip h; simp [collectCandidates] at h
  | cons p rest ih =>
    intro ip h
    obtain ⟨q, d⟩ := p
    simp only [collectCandidates] at h
    by_cases h1 : now - d.lastSeen > NodeTTL
    · rw [if_pos h1] at h
      exact List.mem_cons_of_mem _ (ih ip h)
    · rw [if_neg h1] at h
      by_cases h2 : (cpuOk d.snapshot job && memOk d.snapshot job) = true
      · rw [if_pos h2] at h
        by_cases h3 : tempSafeOk d.snapshot = true
        · rw [if_pos h3] at h
          rcases List.mem_cons.mp h with h4 | h4
          · exact h4 ▸ List.mem_cons_self _ _
          · exact List.mem_cons_of_mem _ (ih ip h4)
        · rw [if_neg h3] at h
          exact List.mem_cons_of_mem _ (ih ip h)
      · rw [if_neg h2] at h
        exact List.mem_cons_of_mem _ (ih ip h)

theorem mem_collect_iff (now : ℚ) (job : JobRequest) :
    ∀ (view : ClusterView) (ip : String) (d : NodeData),
      (viewKeys view).Nodup → (ip, d) ∈ view →
      (ip ∈ (collectCandidates now job view).1 ↔ validP now job (ip, d) = true) ∧
      (ip ∈ (collectCandidates now job view).2 ↔
        (validP now job (ip, d) = true ∧ tempSafeOk d.snapshot = true)) := by
  intro view
  induction view with
  | nil => intro ip d _ hmem; simp at hmem
  | cons p rest ih =>
    intro ip d hn hmem
    obtain ⟨q, e⟩ := p
    have hn' : q ∉ viewKeys rest ∧ (viewKeys rest).Nodup := by
      simpa [viewKeys] using hn
    rcases List.mem_cons.mp hmem with heq | hrest
    · -- the entry is the head of the view
      obtain ⟨hip, hd⟩ := Prod.mk.injEq .. ▸ heq
      subst hip; subst hd
      have hnot1 : ip ∉ (collectCandidates now job rest).1 := fun h =>
        hn'.1 (collect_fst_subset now job rest ip h)
      have hnot2 : ip ∉ (collectCandidates now job rest).2 := fun h =>
        hn'.1 (collect_snd_subset now job rest ip h)
      simp only [collectCandidates]
      by_cases h1 : now - d.lastSeen > NodeTTL
      · rw [if_pos h1]
        simp [validP, h1, hnot1, hnot2]
      · rw [if_neg h1]
        by_cases h2 : (cpuOk d.snapshot job && memOk d.snapshot job) = true
        · rw [if_pos h2]
          by_cases h3 : tempSafeOk d.snapshot = true
          · simp [validP, h1, h2, h3]
          · simp [validP, h1, h2, h3, hnot2]
        · rw [if_neg h2]
          simp only [validP]
          constructor
          · constructor
            · intro h; exact absurd h hnot1
            · intro h
              rw [Bool.and_eq_true] at h
              exact absurd h.2 h2
          · constructor
            · intro h; exact absurd h hnot2
            · intro h
              have hv := h.1
              rw [Bool.and_eq_true] at hv
              exact absurd hv.2 h2
    · -- the entry is in the tail
      have hip : ip ∈ viewKeys rest := by
        simpa [viewKeys] using List.mem_map_of_mem Prod.fst hrest
      have hne : ip ≠ q := fun h => hn'.1 (h ▸ hip)
      have IH := ih ip d hn'.2 hrest
      simp only [collectCandidates]
      by_cases h1 : now - e.lastSeen > NodeTTL
      · rw [if_pos h1]; exact IH
      · rw [if_neg h1]
        by_cases h2 : (cpuOk e.snapshot job && memOk e.snapshot job) = true
        · rw [if_pos h2]
          by_cases h3 : tempSafeOk e.snapshot = true
          · rw [if_pos h3]
            constructor
            · rw [List.mem_cons]
              constructor
              · intro h
                rcases h with h | h
                · exact absurd h hne
                · exact IH.1.mp h
              · intro h; exact Or.inr (IH.1.mpr h)
            · rw [List.mem_cons]
              constructor
              · intro h
                rcases h with h | h
                · exact absurd h hne
                · exact IH.2.mp h
              · intro h; exact Or.inr (IH.2.mpr h)
          · rw [if_neg h3]
            constructor
            · rw [List.mem_cons]
              constructor
              · intro h
                rcases h with h | h
                · exact absurd h hne
                · exact IH.1.mp h
              · intro h; exact Or.inr (IH.1.mpr h)
            · exact IH.2
        · rw [if_neg h2]; exact IH

theorem viewKeys_Update :
    ∀ (v : ClusterView) (ip : String) (snap : MetricsSnapshot) (now : ℚ),
      viewKeys (v.Update ip snap now) =
        if ip ∈ viewKeys v then viewKeys v else viewKeys v ++ [ip] := by
  intro v
  induction v with
  | nil => intro ip snap now; simp [ClusterView.Update, viewKeys]
  | cons p rest ih =>
    intro ip snap now
    by_cases h : p.1 = ip
    · simp [ClusterView.Update, viewKeys, h]
    · have hne : ip ≠ p.1 := fun hc => h hc.symm
      simp only [ClusterView.Update, if_neg h, viewKeys, List.map_cons]
      rw [show (List.map Prod.fst (ClusterView.Update rest ip snap now)) =
        viewKeys (ClusterView.Update rest ip snap now) from rfl, ih ip snap now]
      simp only [viewKeys]
      by_cases hm : ip ∈ List.map Prod.fst rest
      · simp [List.mem_cons, hm, hne]
      · simp [List.mem_cons, hm, hne]

theorem mem_Update_self (v : ClusterView) (ip : String) (snap : MetricsSnapshot)
    (now : ℚ) : (ip, ⟨snap, now⟩) ∈ v.Update ip snap now := by
  induction v with
  | nil => simp [ClusterView.Update]
  | cons p rest ih =>
    by_cases h : p.1 = ip
    · simp [ClusterView.Update, h]
    · simp only [ClusterView.Update, if_neg h]
      exact List.mem_cons_of_mem _ ih

theorem nodup_viewKeys_Update (v : ClusterView) (ip : String)
    (snap : MetricsSnapshot) (now : ℚ) (hn : (viewKeys v).Nodup) :
    (viewKeys (v.Update ip snap now)).Nodup := by
  rw [viewKeys_Update]
  by_cases hm : ip ∈ viewKeys v
  · rwa [if_pos hm]
  · rw [if_neg hm]
    simp [List.nodup_append, hn, hm]

theorem getD_mem_of_ne_nil (pool : List String) (h : pool ≠ []) (r : Nat) :
    pool.getD (r % pool.length) "" ∈ pool := by
  have hlen : 0 < pool.length := List.length_pos.mpr h
  have hlt : r % pool.length < pool.length := Nat.mod_lt _ hlen
  rw [List.getD_eq_getElem pool "" hlt]
  exact List.getElem_mem hlt

theorem lookupD_mapPut_ne (last : List (Nat × Nat)) (pid ns q : Nat)
    (h : q ≠ pid) : lookupD (mapPut last pid ns) q = lookupD last q := by
  have h' : pid ≠ q := fun hc => h hc.symm
  induction last with
  | nil => simp [mapPut, lookupD, h']
  | cons p rest ih =>
    by_cases hp : p.1 = pid
    · have hpq : ¬ p.1 = q := by rw [hp]; exact h'
      simp only [mapPut, if_pos hp, lookupD, if_neg h', if_neg hpq]
    · simp only [mapPut, if_neg hp, lookupD]
      by_cases hq : p.1 = q
      · rw [if_pos hq, if_pos hq]
      · rw [if_neg hq, if_neg hq]; exact ih

theorem cpuLoop_sum :
    ∀ (counters last : List (Nat × Nat)), (counters.map Prod.fst).Nodup →
      (cpuLoop last counters).1 =
        (counters.map
          (fun p => ((p.2 : ℤ) - (lookupD last p.1 : ℤ)).toNat)).sum := by
  intro counters
  induction counters with
  | nil => intro last _; simp [cpuLoop]
  | cons p rest ih =>
    intro last hn
    obtain ⟨pid, ns⟩ := p
    rw [List.map_cons, List.nodup_cons] at hn
    simp only [cpuLoop]
    rw [ih (mapPut last pid ns) hn.2]
    have hmap :
        rest.map (fun p => ((p.2 : ℤ) - (lookupD (mapPut last pid ns) p.1 : ℤ)).toNat)
          = rest.map (fun p => ((p.2 : ℤ) - (lookupD last p.1 : ℤ)).toNat) := by
      apply List.map_congr_left
      intro q hq
      have hne : q.1 ≠ pid := by
        intro hc
        have hm : pid ∈ rest.map Prod.fst := by
          rw [← hc]; exact List.mem_map_of_mem Prod.fst hq
        exact hn.1 hm
      rw [lookupD_mapPut_ne _ _ _ _ hne]
    rw [List.map_cons, List.sum_cons, hmap]
    dsimp only
    congr 1
    by_cases h : lookupD last pid < ns
    · rw [if_pos h]; omega
    · rw [if_neg h]; omega

/-! Concrete inputs used by the witness theorems. -/

/-- A lightly loaded, thermally safe snapshot. -/
def snapLow : MetricsSnapshot := ⟨10, 20, 50, "SAFE", "zone0"⟩

/-- A heavily loaded, hot snapshot. -/
def snapHot : MetricsSnapshot := ⟨90, 20, 85, "HOT", "zone0"⟩

/-- The IMG_RESIZE workload profile of the `run` command. -/
def jobW : JobRequest := ⟨"id0", "IMG_RESIZE", "alexeiled/stress-ng", [], 70, 10⟩

/-- A two-node view: a feasible localhost and an overloaded peer. -/
def viewW : ClusterView := [("localhost", ⟨snapLow, 0⟩), ("10.0.0.2", ⟨snapHot, 0⟩)]

/-- A single-entry view whose entry was last seen at time 0. -/
def staleView : ClusterView := [("10.0.0.9", ⟨snapLow, 0⟩)]

/-! Claim theorems. -/

/-- C1: for every job request and every Cluster View entry that passed the
liveness check, the scheduler admits the entry to the valid pool if and
only if `snapshot.cpu + req_cpu < 95` and `snapshot.mem + req_mem < 90`,
both strictly; in particular an entry with `snapshot.cpu + req_cpu = 95`
is rejected. -/
theorem C1_capacity_admission (now : ℚ) (job : JobRequest) (view : ClusterView)
    (ip : String) (d : NodeData) (hn : (viewKeys view).Nodup)
    (hmem : (ip, d) ∈ view) (hlive : now - d.lastSeen ≤ NodeTTL) :
    (ip ∈ (collectCandidates now job view).1 ↔
      (d.snapshot.cpu + job.reqCpu < 95 ∧ d.snapshot.mem + job.reqMem < 90)) ∧
    (d.snapshot.cpu + job.reqCpu = 95 →
      ip ∉ (collectCandidates now job view).1) := by
  have h := (mem_collect_iff now job view ip d hn hmem).1
  have hstale : ¬ (now - d.lastSeen > NodeTTL) := not_lt.mpr hlive
  have hiff : ip ∈ (collectCandidates now job view).1 ↔
      (d.snapshot.cpu + job.reqCpu < 95 ∧ d.snapshot.mem + job.reqMem < 90) := by
    rw [h]
    simp [validP, cpuOk, memOk, hstale]
  refine ⟨hiff, ?_⟩
  intro heq hmemv
  have hlt := (hiff.mp hmemv).1
  rw [heq] at hlt
  exact lt_irrefl _ hlt

/-- Witness for C1 at a concrete live, feasible entry. -/
theorem C1_capacity_admission_witness :
    ((1 : ℚ) - (0 : ℚ) ≤ NodeTTL) ∧
    ("localhost" ∈ (collectCandidates 1 jobW viewW).1 ↔
      (snapLow.cpu + jobW.reqCpu < 95 ∧ snapLow.mem + jobW.reqMem < 90)) :=
  ⟨by norm_num [NodeTTL],
   (C1_capacity_admission 1 jobW viewW "localhost" ⟨snapLow, 0⟩
      (by simp [viewKeys, viewW])
      (by simp [viewW])
      (by norm_num [NodeTTL])).1⟩

/-- C2: the safe pool is exactly the members of the valid pool whose
`temp_status` is `"SAFE"` or the empty string, and the final selection pool
is the safe pool when it is non-empty, otherwise the valid pool. -/
theorem C2_safe_pool (now : ℚ) (job : JobRequest) (view : ClusterView)
    (ip : String) (d : NodeData) (hn : (viewKeys view).Nodup)
    (hmem : (ip, d) ∈ view) :
    (ip ∈ (collectCandidates now job view).2 ↔
      (ip ∈ (collectCandidates now job view).1 ∧
        (d.snapshot.tempStatus = "SAFE" ∨ d.snapshot.tempStatus = ""))) ∧
    ((collectCandidates now job view).2 ≠ [] →
      finalPool now job view = (collectCandidates now job view).2) ∧
    ((collectCandidates now job view).2 = [] →
      finalPool now job view = (collectCandidates now job view).1) := by
  obtain ⟨h1, h2⟩ := mem_collect_iff now job view ip d hn hmem
  refine ⟨?_, ?_, ?_⟩
  · rw [h2, h1]
    constructor
    · rintro ⟨hv, ht⟩
      exact ⟨hv, by simpa [tempSafeOk] using ht⟩
    · rintro ⟨hv, ht⟩
      exact ⟨hv, by simpa [tempSafeOk] using ht⟩
  · intro hne
    simp [finalPool, hne]
  · intro he
    simp [finalPool, he]

/-- Witness for C2 at a concrete view with one safe member. -/
theorem C2_safe_pool_witness :
    ("localhost" ∈ (collectCandidates 1 jobW viewW).2 ↔
      ("localhost" ∈ (collectCandidates 1 jobW viewW).1 ∧
        (snapLow.tempStatus = "SAFE" ∨ snapLow.tempStatus = ""))) :=
  (C2_safe_pool 1 jobW viewW "localhost" ⟨snapLow, 0⟩
    (by simp [viewKeys, viewW]) (by simp [viewW])).1

/-- C3: whenever the final pool contains `"localhost"`, the scheduler runs
the job locally regardless of the random draw; otherwise the selection is a
member of the final pool. -/
theorem C3_localhost_bias (now : ℚ) (r : Nat) (job : JobRequest)
    (view : ClusterView) (hne : (collectCandidates now job view).1 ≠ []) :
    ("localhost" ∈ finalPool now job view →
      scheduleJob now r job view = .runLocal) ∧
    ("localhost" ∉ finalPool now job view →
      ∃ ip, scheduleJob now r job view = .forward ip ∧
        ip ∈ finalPool now job view) := by
  have h0 : ((collectCandidates now job view).1.isEmpty = true) = False := by
    simp [List.isEmpty_iff, hne]
  have hsched : scheduleJob now r job view =
      (if selectIP (finalPool now job view) r = "localhost" then .runLocal
       else .forward (selectIP (finalPool now job view) r)) := by
    unfold scheduleJob finalPool
    rw [if_neg (h0 ▸ id)]
  have hpne : finalPool now job view ≠ [] := by
    unfold finalPool
    by_cases h2 : (collectCandidates now job view).2.isEmpty
    · rw [if_pos h2]; exact hne
    · rw [if_neg h2]
      simpa [List.isEmpty_iff] using h2
  constructor
  · intro hmem
    have hsel : selectIP (finalPool now job view) r = "localhost" := by
      simp [selectIP, hmem]
    rw [hsched, if_pos hsel]
  · intro hnmem
    have hsel : selectIP (finalPool now job view) r ∈ finalPool now job view := by
      simp only [selectIP]
      rw [if_neg hnmem]
      exact getD_mem_of_ne_nil _ hpne r
    have hsel' : selectIP (finalPool now job view) r ≠ "localhost" :=
      fun h => hnmem (h ▸ hsel)
    exact ⟨_, by rw [hsched, if_neg hsel'], hsel⟩

/-- Witness for C3: with localhost feasible, every random draw (here 5)
selects localhost. -/
theorem C3_localhost_bias_witness :
    scheduleJob 1 5 jobW viewW = .runLocal :=
  (C3_localhost_bias 1 5 jobW viewW
      (by norm_num [collectCandidates, cpuOk, memOk, tempSafeOk, NodeTTL,
        viewW, snapLow, snapHot, jobW])).1
    (by norm_num [finalPool, collectCandidates, cpuOk, memOk, tempSafeOk,
      NodeTTL, viewW, snapLow, snapHot, jobW])

/-- C4: an entry whose age exceeds NodeTTL (4 s) at scheduling time is
excluded from both the valid and the safe pool, and no Cluster View
operation ever deletes an entry: `Update` preserves every existing key. -/
theorem C4_ttl_exclusion_no_delete :
    (∀ (now : ℚ) (job : JobRequest) (view : ClusterView) (ip : String)
       (d : NodeData),
      (viewKeys view).Nodup → (ip, d) ∈ view → now - d.lastSeen > NodeTTL →
      ip ∉ (collectCandidates now job view).1 ∧
        ip ∉ (collectCandidates now job view).2) ∧
    (∀ (v : ClusterView) (ip : String) (snap : MetricsSnapshot) (now : ℚ)
       (x : String),
      x ∈ viewKeys v → x ∈ viewKeys (v.Update ip snap now)) := by
  constructor
  · intro now job view ip d hn hmem hstale
    obtain ⟨h1, h2⟩ := mem_collect_iff now job view ip d hn hmem
    constructor
    · rw [h1]; simp [validP, hstale]
    · rw [h2]; simp [validP, hstale]
  · intro v ip snap now x hx
    rw [viewKeys_Update]
    by_cases hm : ip ∈ viewKeys v
    · rwa [if_pos hm]
    · rw [if_neg hm]
      exact List.mem_append_left _ hx

/-- Witness for C4: a node last seen 10 s ago is excluded, and updating a
view under a fresh key keeps the old key. -/
theorem C4_ttl_exclusion_no_delete_witness :
    ((10 : ℚ) - (0 : ℚ) > NodeTTL) ∧
    "10.0.0.9" ∉ (collectCandidates 10 jobW staleView).1 ∧
    "10.0.0.9" ∈ viewKeys (staleView.Update "localhost" snapLow 10) :=
  ⟨by norm_num [NodeTTL],
   (C4_ttl_exclusion_no_delete.1 10 jobW staleView "10.0.0.9" ⟨snapLow, 0⟩
      (by simp [viewKeys, staleView])
      (by simp [staleView])
      (by norm_num [NodeTTL])).1,
   C4_ttl_exclusion_no_delete.2 staleView "localhost" snapLow 10 "10.0.0.9"
      (by simp [viewKeys, staleView])⟩

/-- C8: when the valid pool is empty the scheduler reports NoCapacity (so
the job is neither executed locally nor forwarded), and the SubmitJob
handler answers `Ack(msg="Failed")` with a non-nil error, for every
possible outcome of the execution oracles — there is no retry path. -/
theorem C8_no_capacity (now : ℚ) (r : Nat) (job : JobRequest)
    (view : ClusterView) (h : (collectCandidates now job view).1 = []) :
    scheduleJob now r job view = .noCapacity ∧
    (∀ (execFailed : Bool) (remoteRunner : Option String),
      submitJobAck (scheduleOutcome (scheduleJob now r job view) execFailed
        remoteRunner) = (⟨"Failed", ""⟩, true)) := by
  have hres : scheduleJob now r job view = .noCapacity := by
    simp [scheduleJob, h]
  refine ⟨hres, ?_⟩
  intro e rr
  rw [hres]
  rfl

/-- Witness for C8 on the empty view. -/
theorem C8_no_capacity_witness :
    scheduleJob 0 0 jobW [] = .noCapacity ∧
    submitJobAck (scheduleOutcome (scheduleJob 0 0 jobW []) false
      (some "10.0.0.2")) = (⟨"Failed", ""⟩, true) :=
  ⟨(C8_no_capacity 0 0 jobW [] rfl).1,
   (C8_no_capacity 0 0 jobW [] rfl).2 false (some "10.0.0.2")⟩

/-- C10: every Push returns `Ack(msg="OK")` with a nil error; when the
sender address cannot be derived the snapshot is stored under the literal
key `"unknown"`, and that entry is admitted to the valid pool under
exactly the liveness and capacity conditions that govern peer entries. -/
theorem C10_push_unknown (view : ClusterView) (now : ℚ)
    (host : Option String) (m : MetricsSnapshot) :
    (pushHandler view now host m).2.1 = ⟨"OK", ""⟩ ∧
    (pushHandler view now host m).2.2 = none ∧
    (host = none →
      ("unknown", ⟨m, now⟩) ∈ (pushHandler view now host m).1 ∧
      ((viewKeys view).Nodup → ∀ (job : JobRequest) (later : ℚ),
        ("unknown" ∈ (collectCandidates later job
            (pushHandler view now host m).1).1 ↔
          (later - now ≤ NodeTTL ∧ m.cpu + job.reqCpu < 95 ∧
            m.mem + job.reqMem < 90)))) := by
  refine ⟨rfl, rfl, ?_⟩
  intro hnone
  subst hnone
  have hv : (pushHandler view now none m).1 = view.Update "unknown" m now := rfl
  constructor
  · rw [hv]
    exact mem_Update_self view "unknown" m now
  · intro hn job later
    have hn' := nodup_viewKeys_Update view "unknown" m now hn
    have h := (mem_collect_iff later job (view.Update "unknown" m now)
      "unknown" ⟨m, now⟩ hn' (mem_Update_self view "unknown" m now)).1
    rw [hv, h]
    simp [validP, cpuOk, memOk, not_lt]

/-- Witness for C10: a push with an underivable sender address into the
empty view stores a live, feasible `"unknown"` entry. -/
theorem C10_push_unknown_witness :
    ("unknown", (⟨snapLow, 0⟩ : NodeData)) ∈ (pushHandler [] 0 none snapLow).1 ∧
    ("unknown" ∈ (collectCandidates 1 jobW (pushHandler [] 0 none snapLow).1).1 ↔
      ((1 : ℚ) - (0 : ℚ) ≤ NodeTTL ∧ snapLow.cpu + jobW.reqCpu < 95 ∧
        snapLow.mem + jobW.reqMem < 90)) :=
  ⟨((C10_push_unknown [] 0 none snapLow).2.2 rfl).1,
   ((C10_push_unknown [] 0 none snapLow).2.2 rfl).2 (by simp [viewKeys]) jobW 1⟩

/-- C5: the value stored by the CPU updater is `95` for every input above
`95`, and for every tick of the CPU producer — the only source of values
passed to the updater in the program — the stored value lies in `[0, 95]`
(producer emissions are never negative, so the missing lower clamp is
never exercised). -/
theorem C5_cpu_clamp :
    (∀ v : ℚ, 95 < v → UpdateCPU v = 95) ∧
    (∀ (last counters : List (Nat × Nat)) (intervalNS numCPUs : Nat),
      0 ≤ UpdateCPU (cpuTick last counters intervalNS numCPUs).1 ∧
      UpdateCPU (cpuTick last counters intervalNS numCPUs).1 ≤ 95) := by
  have hupd : ∀ v : ℚ, 0 ≤ v → 0 ≤ UpdateCPU v ∧ UpdateCPU v ≤ 95 := by
    intro v hv
    unfold UpdateCPU
    by_cases h : v > 95
    · rw [if_pos h]; norm_num
    · rw [if_neg h]; exact ⟨hv, not_lt.mp h⟩
  constructor
  · intro v hv
    unfold UpdateCPU
    rw [if_pos hv]
  · intro last counters intervalNS numCPUs
    apply hupd
    unfold cpuTick
    have h1 : (0 : ℚ) ≤ ((cpuLoop last counters).1 : ℚ) := Nat.cast_nonneg _
    have h2 : (0 : ℚ) ≤ ((intervalNS * numCPUs : Nat) : ℚ) := Nat.cast_nonneg _
    have := div_nonneg h1 h2
    positivity

/-- Witness for C5: an overshoot of 96 is stored as 95, and a concrete
producer tick stores a value in range. -/
theorem C5_cpu_clamp_witness :
    (95 : ℚ) < 96 ∧ UpdateCPU 96 = 95 ∧
    0 ≤ UpdateCPU (cpuTick [] [(1, 1)] 1 1).1 :=
  ⟨by norm_num, C5_cpu_clamp.1 96 (by norm_num),
   (C5_cpu_clamp.2 [] [(1, 1)] 1 1).1⟩

/-- C6: evaluation of the memory producer tick of `cmd/memwatch.go` at a
concrete input.  The code emits the direct-reclaim stall-time ratio
`delta / intervalNS * 100`, not `(total - available) / total * 100`; at a
stall delta of 2.5 s within a 1 s interval it emits 250, outside the
`[0, 100]` range the claim asserts. -/
theorem C6_mem_tick_eval :
    (pollMemTick 0 2500000000 1000000000).1 = 250 ∧
    ¬ (pollMemTick 0 2500000000 1000000000).1 ≤ 100 := by
  constructor
  · norm_num [pollMemTick, u64Sub]
  · norm_num [pollMemTick, u64Sub]

/-- C7 counterexample: when the counter source has observed no zone
(`zone_count = 0`), the tick of `pollThermalStats` emits nothing at all;
it does not emit the record `(0, "UNAVAILABLE", "")` the claim asserts. -/
theorem C7_unavailable_counterexample :
    pollThermalTick true 0 true true 0 "" = none ∧
    pollThermalTick true 0 true true 0 "" ≠
      some ⟨0, "UNAVAILABLE", ""⟩ := by
  constructor
  · rfl
  · intro h
    simp [pollThermalTick] at h

/-- C7 (amended): when the counter source has observed no zone the tick is
skipped and nothing is emitted; otherwise the tick emits
`temp_c = mC / 1000` classified HOT above 80, WARM in (60, 80], SAFE at or
below 60 — the classification of the specification. -/
theorem C7_thermal_amended (zc mc : Nat) (z : String) :
    pollThermalTick true 0 true true mc z = none ∧
    (zc ≠ 0 →
      pollThermalTick true zc true true mc z =
        some ⟨(mc : ℚ) / 1000, specThermalStatus ((mc : ℚ) / 1000), z⟩) := by
  constructor
  · rfl
  · intro hzc
    have hzc' : (zc == 0) = false := by simpa using hzc
    simp only [pollThermalTick, Bool.not_true, Bool.false_or, hzc',
      Bool.false_eq_true, if_false]
    unfold specThermalStatus
    by_cases h80 : (80 : ℚ) < (mc : ℚ) / 1000
    · simp [h80]
    · by_cases h60 : (60 : ℚ) < (mc : ℚ) / 1000
      · simp [h80, h60, not_lt.mp h80]
      · simp [h80, h60]

/-- Witness for C7 (amended) at 70000 millidegrees: a WARM emission. -/
theorem C7_thermal_amended_witness :
    (1 : Nat) ≠ 0 ∧
    pollThermalTick true 1 true true 70000 "cpu" = some ⟨70, "WARM", "cpu"⟩ := by
  refine ⟨by decide, ?_⟩
  have h := (C7_thermal_amended 1 70000 "cpu").2 (by decide)
  rw [h]
  norm_num [specThermalStatus]

/-- C9: under the map invariant that pids are distinct, one tick of the
CPU producer emits exactly the sum over all `(pid, total_ns)` pairs of
`max(0, total_ns - previous[pid])`, divided by `intervalNS * numCPUs`,
times 100, where `previous[pid]` defaults to 0 for unseen pids. -/
theorem C9_cpu_tick_formula (last counters : List (Nat × Nat))
    (intervalNS numCPUs : Nat) (hn : (counters.map Prod.fst).Nodup) :
    (cpuTick last counters intervalNS numCPUs).1 =
      (((counters.map
          (fun p => ((p.2 : ℤ) - (lookupD last p.1 : ℤ)).toNat)).sum : ℚ)
        / ((intervalNS * numCPUs : Nat) : ℚ)) * 100 := by
  show ((cpuLoop last counters).1 : ℚ) / ((intervalNS * numCPUs : Nat) : ℚ) * 100 = _
  rw [cpuLoop_sum counters last hn]

/-- Witness for C9 on two pids, one with an existing counter: the emitted
value is ((300 - 100) + 100) / (10 * 2) * 100. -/
theorem C9_cpu_tick_formula_witness :
    (([((1 : Nat), (300 : Nat)), (2, 100)].map Prod.fst).Nodup) ∧
    (cpuTick [(1, 100)] [(1, 300), (2, 100)] 10 2).1 =
      ((([((1 : Nat), (300 : Nat)), (2, 100)].map
          (fun p => ((p.2 : ℤ) - (lookupD [(1, 100)] p.1 : ℤ)).toNat)).sum : ℚ)
        / ((10 * 2 : Nat) : ℚ)) * 100 :=
  ⟨by decide, C9_cpu_tick_formula [(1, 100)] [(1, 300), (2, 100)] 10 2 (by decide)⟩

end EdgeFaas
